import Mathlib

/-!
Shallow embedding of `l10n.py`: the locale-list parser `ParseLocalesFile` and
the fan-out controller `L10nMixin` (construction, `getLocales`,
`_cbLoadedLocales`, `createL10nBuilds`).

Python dictionaries keyed by locale are modelled as association lists
`List (String × List String)` in insertion order; a raised exception
(IndexError on `splitLine[0]`, AssertionError in `__init__`) is modelled by
`Option`/`Except` failure; Twisted deferreds are modelled by making the
network fetch an explicit oracle `String → Except ε String` and the
callback chain a sequential `Except` computation.

Python's `str.strip`, `str.split('\n')` and `str.split()` are implemented by
structural recursion on the character list of the string, so that every
definition evaluates inside the kernel.
-/

/-- Python's default whitespace set for `str.strip` / `str.split`. -/
def isPySpace (c : Char) : Bool :=
  c = ' ' || c = '\t' || c = '\n' || c = '\r' || c = '\x0b' || c = '\x0c'

/-- Python's `data.strip()`. -/
def pyStrip (s : String) : String :=
  String.mk (((s.data.dropWhile isPySpace).reverse.dropWhile isPySpace).reverse)

/-- Split a character list at every `'\n'`; like Python's `split('\n')`, the
empty input yields one empty fragment. -/
def splitNlChars : List Char → List (List Char)
  | [] => [[]]
  | c :: rest =>
    if c = '\n' then
      [] :: splitNlChars rest
    else
      match splitNlChars rest with
      | [] => [[c]]
      | line :: lines => (c :: line) :: lines

/-- Python's `data.split('\n')`. -/
def pySplitLines (s : String) : List String :=
  (splitNlChars s.data).map String.mk

/-- Split a character list at every whitespace character, keeping empty
fragments (they are filtered below, matching `str.split()` with no
separator). -/
def splitWsChars : List Char → List (List Char)
  | [] => [[]]
  | c :: rest =>
    if isPySpace c then
      [] :: splitWsChars rest
    else
      match splitWsChars rest with
      | [] => [[c]]
      | tok :: toks => (c :: tok) :: toks

/-- Python's `line.split()` with no separator: split on runs of whitespace,
discarding empty fragments. -/
def pySplit (line : String) : List String :=
  ((splitWsChars line.data).filter (fun t => !t.isEmpty)).map String.mk

/-- Dictionary lookup `locales[locale]` on the association-list model
(value of the first entry with the key). -/
def lookupLoc (locales : List (String × List String)) (locale : String) :
    List String :=
  match locales with
  | [] => []
  | e :: rest => if e.1 = locale then e.2 else lookupLoc rest locale

/-- Dictionary membership test `locale in locales`. -/
def memLoc (locales : List (String × List String)) (locale : String) : Bool :=
  match locales with
  | [] => false
  | e :: rest => e.1 = locale || memLoc rest locale

/-- In-place dictionary update `locales[locale] = plats` for a key already
present. -/
def updateLoc (locales : List (String × List String)) (locale : String)
    (plats : List String) : List (String × List String) :=
  locales.map fun e => if e.1 = locale then (locale, plats) else e

/-- The inner loop of `ParseLocalesFile`:
`for plat in buildPlatforms: if plat not in locales[locale]: locales[locale].append(plat)`. -/
def addPlats (current newPlats : List String) : List String :=
  newPlats.foldl (fun acc plat => if plat ∈ acc then acc else acc ++ [plat]) current

/-- One iteration of the `for line in data.split('\n')` loop of
`ParseLocalesFile`. `none` models the `IndexError` raised by
`splitLine[0]` when the line has no tokens. -/
def parseStep (locales : List (String × List String)) (line : String) :
    Option (List (String × List String)) :=
  match pySplit line with
  | [] => none
  | locale :: buildPlatforms =>
    if memLoc locales locale then
      some (updateLoc locales locale (addPlats (lookupLoc locales locale) buildPlatforms))
    else
      some (locales ++ [(locale, buildPlatforms)])

/-- `ParseLocalesFile(data)` from `l10n.py`: strip the input, split it on
newlines, and fold every line into the locale dictionary.  `none` models an
uncaught `IndexError`. -/
def ParseLocalesFile (data : String) : Option (List (String × List String)) :=
  (pySplitLines (pyStrip data)).foldlM parseStep []

/-- The closed set of platforms accepted by the `assert` in
`L10nMixin.__init__`. -/
def supportedPlatforms : List String :=
  ["linux", "linux64", "win32", "win64", "macosx", "macosx64", "osx", "osx64"]

/-- Python's `s.startswith(p)`. -/
def strStartsWith (s p : String) : Bool :=
  p.data.isPrefixOf s.data

/-- The two `startswith` rewrites at the end of `L10nMixin.__init__`:
`macosx*` becomes `osx`, then `linux*` becomes `linux`. -/
def normalizePlatform (platform : String) : String :=
  let p1 := if strStartsWith platform "macosx" then "osx" else platform
  if strStartsWith p1 "linux" then "linux" else p1

/-- The state stored on a successfully constructed `L10nMixin`. -/
structure L10nConfig where
  branch : Option String
  baseTag : String
  localesURL : String
  locales : Option (List (String × List String))
  platform : String
deriving DecidableEq

/-- Python truthiness of the optional `localesURL` argument (absent or the
empty string are falsy). -/
def strTruthy : Option String → Bool
  | some s => if s = "" then false else true
  | none => false

/-- Python truthiness of `self.locales` in `getLocales` (absent or the empty
dictionary are falsy). -/
def localesTruthy : Option (List (String × List String)) → Bool
  | some ls => !ls.isEmpty
  | none => false

/-- `L10nMixin.__init__`: keep a truthy `localesURL`, otherwise require a
branch (`assert branch is not None`) and build the default URL template
`"%s%s/raw-file/%%(revision)s/%s" % (repo, branch, localesFile)`; then check
the platform against the closed set (`assert platform in (...)`) and
normalize it.  `none` models a raised `AssertionError`. -/
def mkL10nMixin (platform repo : String) (branch : Option String)
    (baseTag : String) (localesFile : String)
    (locales : Option (List (String × List String)))
    (localesURL : Option String) : Option L10nConfig :=
  let url? : Option String :=
    if strTruthy localesURL then localesURL
    else
      match branch with
      | none => none
      | some b => some (repo ++ b ++ "/raw-file/%(revision)s/" ++ localesFile)
  match url? with
  | none => none
  | some url =>
    if platform ∈ supportedPlatforms then
      some { branch := branch, baseTag := baseTag, localesURL := url,
             locales := locales, platform := normalizePlatform platform }
    else
      none

/-- The buildbot property bag, modelled extensionally as a partial map from
property name to value (provenance strings are dropped: the claims only
concern values). -/
def Props : Type := String → Option String

/-- `properties.Properties()`. -/
def emptyProps : Props := fun _ => none

/-- `props.updateFromProperties(other)`: every property of `other` overrides
the one already present. -/
def updateFromProperties (base other : Props) : Props :=
  fun k =>
    match other k with
    | some v => some v
    | none => base k

/-- `props.setProperty(k, v, source)` (also `props.update({k: v}, source)`
for a one-key dictionary). -/
def setProperty (p : Props) (k v : String) : Props :=
  fun key => if key = k then some v else p key

/-- The property set built for one locale inside `_cbLoadedLocales`:
persistent scheduler properties, then `set_props` when given, then the
forced `locale`, `en_revision` and `l10n_revision` writes. -/
def buildProps (persistent : Props) (set_props : Option Props)
    (locale baseTag : String) : Props :=
  let p := updateFromProperties emptyProps persistent
  let p :=
    match set_props with
    | some sp => updateFromProperties p sp
    | none => p
  let p := setProperty p "locale" locale
  let p := setProperty p "en_revision" baseTag
  setProperty p "l10n_revision" baseTag

/-- One enqueue call issued by `_cbLoadedLocales` (`create_buildset` with a
`SourceStamp` on the configured branch). -/
structure BuildRequest where
  locale : String
  branch : Option String
  reason : Option String
  props : Props

/-- `L10nMixin._cbLoadedLocales`: iterate the locale dictionary, skip
`en-US`, skip a locale whose non-empty restriction list misses the
controller's platform, and submit one build set for every survivor. -/
def cbLoadedLocales (cfg : L10nConfig) (persistent : Props)
    (locales : List (String × List String)) (reason : Option String)
    (set_props : Option Props) : List BuildRequest :=
  locales.filterMap fun e =>
    if e.1 = "en-US" then none
    else if 0 < e.2.length ∧ cfg.platform ∉ e.2 then none
    else some { locale := e.1, branch := cfg.branch, reason := reason,
                props := buildProps persistent set_props e.1 cfg.baseTag }

/-- The two ways `getLocales` can answer: the configured dictionary returned
synchronously, or a deferred `getPage` of the given URL. -/
inductive LocalesSource where
  | sync (locales : List (String × List String))
  | fetch (url : String)
deriving DecidableEq

/-- Python's `revision or self.baseTag` (a falsy revision falls back to the
base tag). -/
def revisionValue (revision : Option String) (baseTag : String) : String :=
  match revision with
  | some r => if r = "" then baseTag else r
  | none => baseTag

/-- Fuel-indexed replacement of every occurrence of `pat` in the input by
`rep`; the fuel is the input length, so the fuel never runs out. -/
def replaceAux (pat rep : List Char) : Nat → List Char → List Char
  | _, [] => []
  | 0, s => s
  | Nat.succ fuel, c :: rest =>
    if pat.isPrefixOf (c :: rest) then
      rep ++ replaceAux pat rep fuel (rest.drop (pat.length - 1))
    else
      c :: replaceAux pat rep fuel rest

/-- Replace every occurrence of `pat` in `s` by `rep`: the effect of
Python's `self.localesURL % {'revision': v}` on the single
`%(revision)s` directive the URL template contains. -/
def replaceAll (s pat rep : String) : String :=
  String.mk (replaceAux pat.data rep.data s.data.length s.data)

/-- `L10nMixin.getLocales`: the configured dictionary when truthy, otherwise
a network fetch of the URL template with the revision substituted. -/
def getLocales (cfg : L10nConfig) (revision : Option String) : LocalesSource :=
  if localesTruthy cfg.locales then
    LocalesSource.sync (cfg.locales.getD [])
  else
    LocalesSource.fetch
      (replaceAll cfg.localesURL "%(revision)s" (revisionValue revision cfg.baseTag))

/-- How the deferred chain of `createL10nBuilds` can fail: the `getPage`
errback, or the `IndexError` escaping `ParseLocalesFile`. -/
inductive L10nFailure (ε : Type) where
  | fetchFailed (e : ε)
  | parseFailed

/-- `L10nMixin.createL10nBuilds`: resolve the locales (synchronously or via
the fetch oracle plus `ParseLocalesFile`), then run `_cbLoadedLocales`.
An errback anywhere in the chain skips the enqueue callback and surfaces the
failure. -/
def createL10nBuilds {ε : Type} (cfg : L10nConfig) (persistent : Props)
    (fetchPage : String → Except ε String) (revision : Option String)
    (reason : Option String) (set_props : Option Props) :
    Except (L10nFailure ε) (List BuildRequest) :=
  match getLocales cfg revision with
  | LocalesSource.sync locales =>
    Except.ok (cbLoadedLocales cfg persistent locales reason set_props)
  | LocalesSource.fetch url =>
    match fetchPage url with
    | Except.error e => Except.error (L10nFailure.fetchFailed e)
    | Except.ok data =>
      match ParseLocalesFile data with
      | none => Except.error L10nFailure.parseFailed
      | some locales =>
        Except.ok (cbLoadedLocales cfg persistent locales reason set_props)

/-- The enqueue calls actually issued by a run of `createL10nBuilds`: none
when the deferred chain failed before `_cbLoadedLocales`. -/
def submittedBuilds {ε : Type} (r : Except (L10nFailure ε) (List BuildRequest)) :
    List BuildRequest :=
  match r with
  | Except.ok builds => builds
  | Except.error _ => []

/-! ### Concrete states used by witnesses and counterexamples -/

/-- A controller state holding a non-empty explicit locale mapping. -/
def cfgFr : L10nConfig :=
  { branch := some "mozilla-central", baseTag := "default",
    localesURL := "https://hg.mozilla.org/mozilla-central/raw-file/%(revision)s/browser/locales/all-locales",
    locales := some [("fr", [])], platform := "linux" }

/-- A controller state with no explicit locales, forcing the network path. -/
def cfgNoLoc : L10nConfig :=
  { branch := some "mozilla-central", baseTag := "default",
    localesURL := "https://hg.mozilla.org/mozilla-central/raw-file/%(revision)s/browser/locales/all-locales",
    locales := none, platform := "linux" }

/-- A controller state on the normalized platform `osx`. -/
def cfgOsx : L10nConfig :=
  { branch := some "mozilla-central", baseTag := "default",
    localesURL := "https://hg.mozilla.org/mozilla-central/raw-file/%(revision)s/browser/locales/all-locales",
    locales := none, platform := "osx" }

/-- Caller-supplied extra properties that try to override the revision tags
and the locale. -/
def spClash : Props :=
  fun k =>
    if k = "en_revision" then some "CLASH"
    else if k = "l10n_revision" then some "CLASH"
    else if k = "locale" then some "CLASH"
    else none

/-- The build request the fan-out submits for `fr` from `cfgOsx` with
`spClash` extras. -/
def bFr : BuildRequest :=
  { locale := "fr", branch := cfgOsx.branch, reason := none,
    props := buildProps emptyProps (some spClash) "fr" cfgOsx.baseTag }

/-! ### Helper lemmas about the parser -/

theorem ne_empty_of_mem_pySplit {line t : String} (h : t ∈ pySplit line) :
    t ≠ "" := by
  rcases List.mem_map.mp h with ⟨cs, hcs, rfl⟩
  have h2 := (List.mem_filter.mp hcs).2
  intro he
  have hnil : cs = [] := by
    have hd : (String.mk cs).data = ("" : String).data := by rw [he]
    simpa using hd
  subst hnil
  simp at h2

theorem parseStep_eq_none_iff (locales : List (String × List String))
    (line : String) : parseStep locales line = none ↔ pySplit line = [] := by
  unfold parseStep
  cases h : pySplit line with
  | nil => simp
  | cons locale plats =>
    by_cases hm : memLoc locales locale <;> simp [hm]

theorem parseStep_isSome (locales : List (String × List String))
    {line : String} (h : pySplit line ≠ []) :
    (parseStep locales line).isSome := by
  rw [Option.isSome_iff_ne_none]
  intro hn
  exact h ((parseStep_eq_none_iff locales line).mp hn)

theorem foldlM_parseStep_isSome :
    ∀ (lines : List String) (acc : List (String × List String)),
      (lines.foldlM parseStep acc).isSome = true ↔
        ∀ line ∈ lines, pySplit line ≠ [] := by
  intro lines
  induction lines with
  | nil => intro acc; simp [List.foldlM]
  | cons line ls ih =>
    intro acc
    rw [List.foldlM_cons]
    cases hstep : parseStep acc line with
    | none =>
      have hps := (parseStep_eq_none_iff acc line).mp hstep
      constructor
      · intro h; exact Bool.noConfusion h
      · intro h; exact absurd hps (h line (List.mem_cons_self line ls))
    | some acc' =>
      have hps : pySplit line ≠ [] := by
        intro hc
        rw [(parseStep_eq_none_iff acc line).mpr hc] at hstep
        exact Option.noConfusion hstep
      have hmain := ih acc'
      constructor
      · intro h l hl
        rcases List.mem_cons.mp hl with rfl | hl'
        · exact hps
        · exact (hmain.mp h) l hl'
      · intro h
        exact hmain.mpr fun l hl => h l (List.mem_cons_of_mem line hl)
/-! ### Helper lemmas about the association-list dictionary model -/

theorem memLoc_cons (e : String × List String) (rest : List (String × List String))
    (l : String) : memLoc (e :: rest) l = (decide (e.1 = l) || memLoc rest l) := rfl

theorem lookupLoc_cons (e : String × List String) (rest : List (String × List String))
    (l : String) :
    lookupLoc (e :: rest) l = if e.1 = l then e.2 else lookupLoc rest l := rfl

theorem updateLoc_cons (e : String × List String) (rest : List (String × List String))
    (k : String) (v : List String) :
    updateLoc (e :: rest) k v =
      (if e.1 = k then (k, v) else e) :: updateLoc rest k v := by
  unfold updateLoc
  rw [List.map_cons]

theorem memLoc_iff_mem_map_fst (m : List (String × List String)) (l : String) :
    memLoc m l = true ↔ l ∈ m.map Prod.fst := by
  induction m with
  | nil => simp [memLoc]
  | cons e rest ih =>
    rw [memLoc_cons, List.map_cons, List.mem_cons, Bool.or_eq_true,
      decide_eq_true_eq, ih]
    constructor
    · rintro (h | h)
      · exact Or.inl h.symm
      · exact Or.inr h
    · rintro (h | h)
      · exact Or.inl h.symm
      · exact Or.inr h

theorem lookupLoc_eq_nil_of_not_memLoc {m : List (String × List String)}
    {l : String} (h : memLoc m l = false) : lookupLoc m l = [] := by
  induction m with
  | nil => rfl
  | cons e rest ih =>
    rw [memLoc_cons, Bool.or_eq_false_iff] at h
    rw [lookupLoc_cons, if_neg (by simpa using h.1)]
    exact ih h.2

theorem memLoc_append_single (m : List (String × List String)) (k : String)
    (v : List String) (l : String) :
    memLoc (m ++ [(k, v)]) l = (memLoc m l || decide (k = l)) := by
  induction m with
  | nil => simp [memLoc]
  | cons e rest ih =>
    rw [List.cons_append, memLoc_cons, ih, memLoc_cons, Bool.or_assoc]

theorem lookupLoc_append_single (m : List (String × List String)) (k : String)
    (v : List String) (l : String) :
    lookupLoc (m ++ [(k, v)]) l =
      if memLoc m l then lookupLoc m l else if k = l then v else [] := by
  induction m with
  | nil => simp [memLoc, lookupLoc]
  | cons e rest ih =>
    rw [List.cons_append, lookupLoc_cons, ih, lookupLoc_cons, memLoc_cons]
    by_cases h : e.1 = l
    · simp [h]
    · simp [h]

theorem memLoc_updateLoc (m : List (String × List String)) (k : String)
    (v : List String) (l : String) :
    memLoc (updateLoc m k v) l = memLoc m l := by
  induction m with
  | nil => rfl
  | cons e rest ih =>
    rw [updateLoc_cons, memLoc_cons, ih, memLoc_cons]
    by_cases h : e.1 = k
    · rw [if_pos h, h]
    · rw [if_neg h]

theorem lookupLoc_updateLoc_self (m : List (String × List String)) (k : String)
    (v : List String) :
    lookupLoc (updateLoc m k v) k = if memLoc m k then v else [] := by
  induction m with
  | nil => rfl
  | cons e rest ih =>
    rw [updateLoc_cons, lookupLoc_cons, memLoc_cons]
    by_cases h : e.1 = k
    · simp [h]
    · rw [if_neg h]
      simp only [if_neg h, decide_eq_true_eq, ih]
      have hb : (decide (e.1 = k) || memLoc rest k) = memLoc rest k := by
        simp [h]
      rw [hb]

theorem lookupLoc_updateLoc_ne (m : List (String × List String)) (k : String)
    (v : List String) {l : String} (h : l ≠ k) :
    lookupLoc (updateLoc m k v) l = lookupLoc m l := by
  induction m with
  | nil => rfl
  | cons e rest ih =>
    rw [updateLoc_cons, lookupLoc_cons, lookupLoc_cons]
    by_cases he : e.1 = k
    · rw [if_pos he, if_neg (fun hc : (k, v).1 = l => h ((hc : k = l)).symm),
        if_neg (fun hc : e.1 = l => h (hc ▸ he ▸ rfl : l = k)), ih]
    · rw [if_neg he, ih]

theorem map_fst_updateLoc (m : List (String × List String)) (k : String)
    (v : List String) : (updateLoc m k v).map Prod.fst = m.map Prod.fst := by
  induction m with
  | nil => rfl
  | cons e rest ih =>
    rw [updateLoc_cons, List.map_cons, List.map_cons, ih]
    by_cases h : e.1 = k
    · rw [if_pos h, h]
    · rw [if_neg h]

theorem mem_addPlats (newPlats : List String) (current : List String)
    (x : String) : x ∈ addPlats current newPlats ↔ x ∈ current ∨ x ∈ newPlats := by
  induction newPlats generalizing current with
  | nil => simp [addPlats]
  | cons p ps ih =>
    unfold addPlats
    rw [List.foldl_cons]
    show x ∈ addPlats (if p ∈ current then current else current ++ [p]) ps ↔ _
    rw [ih]
    by_cases hp : p ∈ current
    · rw [if_pos hp]
      constructor
      · rintro (h | h)
        · exact Or.inl h
        · exact Or.inr (List.mem_cons_of_mem p h)
      · rintro (h | h)
        · exact Or.inl h
        · rcases List.mem_cons.mp h with rfl | h'
          · exact Or.inl hp
          · exact Or.inr h'
    · rw [if_neg hp]
      simp only [List.mem_append, List.mem_singleton, List.mem_cons]
      tauto

theorem parseStep_eq (locales : List (String × List String)) (line : String)
    (locale : String) (plats : List String) (h : pySplit line = locale :: plats) :
    parseStep locales line =
      if memLoc locales locale then
        some (updateLoc locales locale (addPlats (lookupLoc locales locale) plats))
      else some (locales ++ [(locale, plats)]) := by
  unfold parseStep
  rw [h]

/-- Running the parse loop from an accumulator dictionary succeeds exactly
when no remaining line is blank, keeps the keys duplicate-free, and the
resulting dictionary holds `p` under `l` exactly when the accumulator
already did or some processed line names locale `l` with token `p`. -/
theorem foldlM_parseStep_char :
    ∀ (lines : List String) (acc m : List (String × List String)),
      List.foldlM parseStep acc lines = some m →
      ((acc.map Prod.fst).Nodup → (m.map Prod.fst).Nodup) ∧
      (∀ l, memLoc m l = true ↔
        (memLoc acc l = true ∨ ∃ line ∈ lines, ∃ rest, pySplit line = l :: rest)) ∧
      (∀ l p, p ∈ lookupLoc m l ↔
        (p ∈ lookupLoc acc l ∨
          ∃ line ∈ lines, ∃ rest, pySplit line = l :: rest ∧ p ∈ rest)) := by
  intro lines
  induction lines with
  | nil =>
    intro acc m h
    rw [List.foldlM_nil] at h
    have hacc : acc = m := Option.some.inj h
    subst hacc
    exact ⟨fun hn => hn, fun l => by simp, fun l p => by simp⟩
  | cons line ls ih =>
    intro acc m h
    rw [List.foldlM_cons] at h
    cases hstep : parseStep acc line with
    | none =>
      rw [hstep] at h
      exact Option.noConfusion h
    | some acc' =>
      rw [hstep] at h
      have h' : List.foldlM parseStep acc' ls = some m := h
      obtain ⟨hnodup, hmem, hlook⟩ := ih acc' m h'
      cases hps : pySplit line with
      | nil =>
        rw [(parseStep_eq_none_iff acc line).mpr hps] at hstep
        exact Option.noConfusion hstep
      | cons locale plats =>
        rw [parseStep_eq acc line locale plats hps] at hstep
        have hconsK : ∀ l : String,
            (∃ line' ∈ line :: ls, ∃ rest, pySplit line' = l :: rest) ↔
              (l = locale ∨ ∃ line' ∈ ls, ∃ rest, pySplit line' = l :: rest) := by
          intro l
          constructor
          · rintro ⟨line', hmem', r, hr⟩
            rcases List.mem_cons.mp hmem' with rfl | h'
            · rw [hps] at hr
              injection hr with h1 h2
              exact Or.inl h1.symm
            · exact Or.inr ⟨line', h', r, hr⟩
          · rintro (rfl | ⟨line', h', r, hr⟩)
            · exact ⟨line, List.mem_cons_self line ls, plats, hps⟩
            · exact ⟨line', List.mem_cons_of_mem line h', r, hr⟩
        have hcons : ∀ l p : String,
            (∃ line' ∈ line :: ls, ∃ rest, pySplit line' = l :: rest ∧ p ∈ rest) ↔
              ((l = locale ∧ p ∈ plats) ∨
                ∃ line' ∈ ls, ∃ rest, pySplit line' = l :: rest ∧ p ∈ rest) := by
          intro l p
          constructor
          · rintro ⟨line', hmem', r, hr, hp⟩
            rcases List.mem_cons.mp hmem' with rfl | h'
            · rw [hps] at hr
              injection hr with h1 h2
              subst h2
              exact Or.inl ⟨h1.symm, hp⟩
            · exact Or.inr ⟨line', h', r, hr, hp⟩
          · rintro (⟨rfl, hp⟩ | ⟨line', h', r, hr, hp⟩)
            · exact ⟨line, List.mem_cons_self line ls, plats, hps, hp⟩
            · exact ⟨line', List.mem_cons_of_mem line h', r, hr, hp⟩
        by_cases hm : memLoc acc locale = true
        · rw [if_pos hm] at hstep
          injection hstep with hacc'
          subst hacc'
          refine ⟨?_, ?_, ?_⟩
          · intro hn
            apply hnodup
            rw [map_fst_updateLoc]
            exact hn
          · intro l
            rw [hmem l, memLoc_updateLoc, hconsK l]
            by_cases hl : l = locale
            · subst hl
              simp [hm]
            · tauto
          · intro l p
            rw [hlook l p, hcons l p]
            by_cases hl : l = locale
            · subst hl
              rw [lookupLoc_updateLoc_self, if_pos hm, mem_addPlats]
              simp only [eq_self_iff_true, true_and]
              tauto
            · rw [lookupLoc_updateLoc_ne acc locale
                (addPlats (lookupLoc acc locale) plats) hl]
              tauto
        · rw [if_neg hm] at hstep
          injection hstep with hacc'
          subst hacc'
          have hmf : memLoc acc locale = false := by
            cases hb : memLoc acc locale
            · rfl
            · exact absurd hb hm
          refine ⟨?_, ?_, ?_⟩
          · intro hn
            apply hnodup
            simp only [List.map_append, List.map_cons, List.map_nil]
            have hlocale : locale ∉ acc.map Prod.fst := by
              intro hc
              rw [← memLoc_iff_mem_map_fst] at hc
              rw [hc] at hmf
              exact Bool.noConfusion hmf
            refine List.Nodup.append hn (List.nodup_singleton locale) ?_
            intro a ha hb
            rw [List.mem_singleton] at hb
            subst hb
            exact hlocale ha
          · intro l
            rw [hmem l, memLoc_append_single, hconsK l, Bool.or_eq_true,
              decide_eq_true_eq]
            by_cases hl : l = locale
            · subst hl
              tauto
            · have hne : ¬(locale = l) := fun hc => hl hc.symm
              tauto
          · intro l p
            rw [hlook l p, lookupLoc_append_single, hcons l p]
            by_cases hl : l = locale
            · subst hl
              rw [if_neg (by simp [hmf]), if_pos rfl,
                lookupLoc_eq_nil_of_not_memLoc hmf]
              simp only [List.not_mem_nil, false_or, eq_self_iff_true, true_and]
            · have hne : ¬(locale = l) := fun hc => hl hc.symm
              cases hb : memLoc acc l
              · rw [if_neg (by decide : ¬(false = true)), if_neg hne,
                  lookupLoc_eq_nil_of_not_memLoc hb]
                simp only [List.not_mem_nil, false_or]
                tauto
              · rw [if_pos (rfl : (true = true))]
                tauto

theorem memLoc_nil (l : String) : memLoc [] l = false := rfl

theorem lookupLoc_nil (l : String) : lookupLoc [] l = [] := rfl

/-- Specialisation of `foldlM_parseStep_char` to a whole `ParseLocalesFile`
run (empty starting dictionary). -/
theorem ParseLocalesFile_char (data : String) (m : List (String × List String))
    (h : ParseLocalesFile data = some m) :
    (m.map Prod.fst).Nodup ∧
    (∀ l, memLoc m l = true ↔
      ∃ line ∈ pySplitLines (pyStrip data), ∃ rest, pySplit line = l :: rest) ∧
    (∀ l p, p ∈ lookupLoc m l ↔
      ∃ line ∈ pySplitLines (pyStrip data), ∃ rest,
        pySplit line = l :: rest ∧ p ∈ rest) := by
  obtain ⟨h1, h2, h3⟩ :=
    foldlM_parseStep_char (pySplitLines (pyStrip data)) [] m h
  refine ⟨h1 (by simp), fun l => ?_, fun l p => ?_⟩
  · rw [h2 l, memLoc_nil]
    simp
  · rw [h3 l p, lookupLoc_nil]
    simp

/-! ### Claim theorems -/

/-- Claim C1, counterexample: an input with a whitespace-only interior line
makes `ParseLocalesFile` fail (the modelled `IndexError`) instead of
skipping the line, so parse is not total on such inputs. -/
theorem parse_blank_line_counterexample : ParseLocalesFile "fr\n\nde" = none := by
  decide

/-- Claim C1 (amended): `ParseLocalesFile` never returns an entry whose
locale id is the empty string, but it is not total on inputs with a
whitespace-only line: any such line makes the whole parse fail with the
out-of-range token access rather than being skipped. -/
theorem parse_no_empty_locale_and_blank_line_fails (data : String) :
    (∀ m, ParseLocalesFile data = some m → ∀ e ∈ m, e.1 ≠ "") ∧
    ((∃ line ∈ pySplitLines (pyStrip data), pySplit line = []) →
      ParseLocalesFile data = none) := by
  constructor
  · intro m hm e he
    obtain ⟨h1, h2, h3⟩ := ParseLocalesFile_char data m hm
    have hkey : memLoc m e.1 = true := by
      rw [memLoc_iff_mem_map_fst]
      exact List.mem_map.mpr ⟨e, he, rfl⟩
    rw [h2 e.1] at hkey
    rcases hkey with ⟨line, hline, rest, hr⟩
    intro hc
    have hmem : e.1 ∈ pySplit line := by
      rw [hr]
      exact List.mem_cons_self e.1 rest
    exact ne_empty_of_mem_pySplit hmem hc
  · intro hex
    have hnot : ¬((List.foldlM parseStep [] (pySplitLines (pyStrip data))).isSome = true) := by
      rw [foldlM_parseStep_isSome]
      push_neg
      exact hex
    unfold ParseLocalesFile
    exact Option.not_isSome_iff_eq_none.mp hnot

/-- Claim C1, witness: a concrete input whose middle line is a single space
makes the parse fail. -/
theorem parse_no_empty_locale_witness : ParseLocalesFile "it\n \npl" = none :=
  (parse_no_empty_locale_and_blank_line_fails "it\n \npl").2 (by decide)

/-- Claim C2, counterexample: on the empty input `ParseLocalesFile` fails
(the modelled `IndexError` from `splitLine[0]` on the sole empty line)
instead of returning the empty mapping. -/
theorem parse_empty_input_counterexample : ParseLocalesFile "" = none := by
  decide

/-- Claim C2 (amended): every input that is empty after stripping makes
`ParseLocalesFile` fail with the out-of-range token access; no mapping is
returned. -/
theorem parse_empty_input_fails (data : String) (h : pyStrip data = "") :
    ParseLocalesFile data = none := by
  unfold ParseLocalesFile
  rw [h]
  decide

/-- Claim C2, witness: whitespace-only input strips to empty and the parse
fails on it. -/
theorem parse_empty_input_fails_witness :
    pyStrip " \t " = "" ∧ ParseLocalesFile " \t " = none :=
  ⟨by decide, parse_empty_input_fails " \t " (by decide)⟩

/-- Claim C7: a successful parse has duplicate-free locale keys, and a
platform token is in a locale's restriction set exactly when some input
line starts with that locale and carries that token — restriction sets of
repeated locale lines are unioned, never overwritten. -/
theorem parse_unique_keys_union (data : String) (m : List (String × List String))
    (h : ParseLocalesFile data = some m) :
    (m.map Prod.fst).Nodup ∧
    (∀ l p, p ∈ lookupLoc m l ↔
      ∃ line ∈ pySplitLines (pyStrip data), ∃ rest,
        pySplit line = l :: rest ∧ p ∈ rest) := by
  obtain ⟨h1, h2, h3⟩ := ParseLocalesFile_char data m h
  exact ⟨h1, h3⟩

/-- Claim C7, witness: `parse("fr linux\nfr osx")` yields
`{fr: {linux, osx}}`, and the union characterisation holds there. -/
theorem parse_unique_keys_union_witness :
    ParseLocalesFile "fr linux\nfr osx" = some [("fr", ["linux", "osx"])] ∧
    ("osx" ∈ lookupLoc [("fr", ["linux", "osx"])] "fr" ↔
      ∃ line ∈ pySplitLines (pyStrip "fr linux\nfr osx"), ∃ rest,
        pySplit line = "fr" :: rest ∧ "osx" ∈ rest) :=
  ⟨by decide,
    (parse_unique_keys_union "fr linux\nfr osx" [("fr", ["linux", "osx"])]
      (by decide)).2 "fr" "osx"⟩

/-- Claim C8: every line of a successfully parsed input contributes an entry
keyed by its first whitespace-separated token whose restriction set contains
all remaining tokens, and `parse("fr\nja linux win32\nde")` yields
`{fr: {}, ja: {linux, win32}, de: {}}` with tokens stored as given. -/
theorem parse_line_contribution :
    (∀ (data line l : String) (rest : List String)
        (m : List (String × List String)),
      ParseLocalesFile data = some m →
      line ∈ pySplitLines (pyStrip data) →
      pySplit line = l :: rest →
      memLoc m l = true ∧ ∀ p ∈ rest, p ∈ lookupLoc m l) ∧
    ParseLocalesFile "fr\nja linux win32\nde" =
      some [("fr", []), ("ja", ["linux", "win32"]), ("de", [])] := by
  constructor
  · intro data line l rest m hm hline htok
    obtain ⟨h1, h2, h3⟩ := ParseLocalesFile_char data m hm
    constructor
    · rw [h2 l]
      exact ⟨line, hline, rest, htok⟩
    · intro p hp
      rw [h3 l p]
      exact ⟨line, hline, rest, htok, hp⟩
  · decide

/-- Claim C8, witness: the `ja linux win32` line of the example input puts
`ja` in the mapping with `linux` in its restriction set. -/
theorem parse_line_contribution_witness :
    memLoc [("fr", []), ("ja", ["linux", "win32"]), ("de", [])] "ja" = true ∧
    "linux" ∈ lookupLoc [("fr", []), ("ja", ["linux", "win32"]), ("de", [])] "ja" :=
  ⟨(parse_line_contribution.1 "fr\nja linux win32\nde" "ja linux win32" "ja"
      ["linux", "win32"] [("fr", []), ("ja", ["linux", "win32"]), ("de", [])]
      (by decide) (by decide) (by decide)).1,
    (parse_line_contribution.1 "fr\nja linux win32\nde" "ja linux win32" "ja"
      ["linux", "win32"] [("fr", []), ("ja", ["linux", "win32"]), ("de", [])]
      (by decide) (by decide) (by decide)).2 "linux" (by decide)⟩

/-- Claim C3, counterexample: a controller constructed with the explicit
EMPTY locale mapping does not return it synchronously — the empty dictionary
is falsy, so `getLocales` takes the network-fetch path instead. -/
theorem getLocales_empty_mapping_counterexample :
    Option.map (fun cfg => getLocales cfg none)
        (mkL10nMixin "linux" "https://hg.mozilla.org/" (some "mozilla-central")
          "default" "browser/locales/all-locales" (some []) none) =
      some (LocalesSource.fetch
        "https://hg.mozilla.org/mozilla-central/raw-file/default/browser/locales/all-locales") ∧
    Option.map (fun cfg => getLocales cfg none)
        (mkL10nMixin "linux" "https://hg.mozilla.org/" (some "mozilla-central")
          "default" "browser/locales/all-locales" (some []) none) ≠
      some (LocalesSource.sync []) := by
  constructor
  · decide
  · decide

/-- Claim C3 (amended): for every controller whose explicit locale mapping
is non-empty, `getLocales` returns that mapping unchanged on the synchronous
path (no fetch); the explicit empty mapping instead falls through to the
fetch path because the empty dictionary is falsy. -/
theorem getLocales_nonempty_sync (cfg : L10nConfig)
    (L : List (String × List String)) (revision : Option String)
    (hL : cfg.locales = some L) (hne : L ≠ []) :
    getLocales cfg revision = LocalesSource.sync L := by
  have ht : localesTruthy (some L) = true := by
    cases L with
    | nil => exact absurd rfl hne
    | cons x xs => rfl
  unfold getLocales
  rw [hL, if_pos ht]
  rfl

/-- Claim C3, witness: the controller with the explicit mapping
`{fr: {}}` gets it back synchronously, twice equal by purity. -/
theorem getLocales_nonempty_sync_witness :
    getLocales cfgFr none = LocalesSource.sync [("fr", [])] :=
  getLocales_nonempty_sync cfgFr [("fr", [])] none rfl (by decide)

theorem createL10nBuilds_fetch_eq {ε : Type} (cfg : L10nConfig)
    (persistent : Props) (fetchPage : String → Except ε String)
    (revision reason : Option String) (set_props : Option Props)
    (url : String)
    (hurl : getLocales cfg revision = LocalesSource.fetch url) :
    createL10nBuilds cfg persistent fetchPage revision reason set_props =
      match fetchPage url with
      | Except.error e => Except.error (L10nFailure.fetchFailed e)
      | Except.ok data =>
        match ParseLocalesFile data with
        | none => Except.error L10nFailure.parseFailed
        | some locales =>
          Except.ok (cbLoadedLocales cfg persistent locales reason set_props) := by
  unfold createL10nBuilds
  rw [hurl]

/-- Claim C4: when the controller is on the fetch path and the network fetch
of the locale list fails, `createL10nBuilds` surfaces exactly that fetch
error and issues zero enqueue calls. -/
theorem createL10nBuilds_fetch_error {ε : Type} (cfg : L10nConfig)
    (persistent : Props) (fetchPage : String → Except ε String)
    (revision reason : Option String) (set_props : Option Props)
    (url : String) (e : ε)
    (hurl : getLocales cfg revision = LocalesSource.fetch url)
    (herr : fetchPage url = Except.error e) :
    createL10nBuilds cfg persistent fetchPage revision reason set_props =
      Except.error (L10nFailure.fetchFailed e) ∧
    submittedBuilds
        (createL10nBuilds cfg persistent fetchPage revision reason set_props) = [] := by
  have heq := createL10nBuilds_fetch_eq cfg persistent fetchPage revision
    reason set_props url hurl
  rw [herr] at heq
  constructor
  · exact heq
  · rw [heq]
    rfl

/-- Claim C4, witness: a timed-out fetch on a concrete controller rejects
with the fetch error and submits nothing. -/
theorem createL10nBuilds_fetch_error_witness :
    createL10nBuilds cfgNoLoc emptyProps
        (fun _ => Except.error "connection timed out") none none none =
      Except.error (L10nFailure.fetchFailed "connection timed out") ∧
    submittedBuilds (createL10nBuilds cfgNoLoc emptyProps
        (fun _ => Except.error "connection timed out") none none none) = [] :=
  createL10nBuilds_fetch_error cfgNoLoc emptyProps
    (fun _ => Except.error "connection timed out") none none none
    "https://hg.mozilla.org/mozilla-central/raw-file/default/browser/locales/all-locales"
    "connection timed out" (by decide) rfl

/-- Claim C5: every build submitted by the fan-out carries `locale` equal to
its own locale and both revision-tag properties equal to the controller's
base tag, whatever the persistent or caller-supplied properties said. -/
theorem fanout_forces_locale_and_revisions (cfg : L10nConfig)
    (persistent : Props) (locales : List (String × List String))
    (reason : Option String) (set_props : Option Props) (b : BuildRequest)
    (hb : b ∈ cbLoadedLocales cfg persistent locales reason set_props) :
    b.props "locale" = some b.locale ∧
    b.props "en_revision" = some cfg.baseTag ∧
    b.props "l10n_revision" = some cfg.baseTag := by
  rcases List.mem_filterMap.mp hb with ⟨e, hel, he⟩
  by_cases h1 : e.1 = "en-US"
  · rw [if_pos h1] at he
    exact Option.noConfusion he
  · rw [if_neg h1] at he
    by_cases h2 : 0 < e.2.length ∧ cfg.platform ∉ e.2
    · rw [if_pos h2] at he
      exact Option.noConfusion he
    · rw [if_neg h2] at he
      injection he with hbe
      subst hbe
      refine ⟨?_, ?_, ?_⟩ <;> simp [buildProps, setProperty]

/-- Claim C5, witness: even with extra properties that set `locale`,
`en_revision` and `l10n_revision` to a clashing value, the submitted build
for `fr` carries the forced values. -/
theorem fanout_forces_locale_and_revisions_witness :
    bFr.props "locale" = some bFr.locale ∧
    bFr.props "en_revision" = some cfgOsx.baseTag ∧
    bFr.props "l10n_revision" = some cfgOsx.baseTag :=
  fanout_forces_locale_and_revisions cfgOsx emptyProps [("fr", [])] none
    (some spClash) bFr
    (by
      show bFr ∈ [bFr]
      exact List.mem_singleton_self bFr)

/-- Claim C6: the fan-out submits exactly one build per locale that is not
`en-US` and whose restriction set is empty or names the controller's
platform, and none for any other locale; in particular
`{en-US: {}, fr: {}, ja: {linux}}` on platform `osx` yields one build,
for `fr`. -/
theorem fanout_filters_locales :
    (∀ (cfg : L10nConfig) (persistent : Props)
        (locales : List (String × List String)) (reason : Option String)
        (set_props : Option Props),
      (cbLoadedLocales cfg persistent locales reason set_props).map
          BuildRequest.locale =
        (locales.filter fun e =>
            e.1 ≠ "en-US" ∧ (e.2 = [] ∨ cfg.platform ∈ e.2)).map Prod.fst) ∧
    (cbLoadedLocales cfgOsx emptyProps
        [("en-US", []), ("fr", []), ("ja", ["linux"])] none none).map
      BuildRequest.locale = ["fr"] := by
  constructor
  · intro cfg persistent locales reason set_props
    induction locales with
    | nil => rfl
    | cons e rest ih =>
      simp only [cbLoadedLocales, List.filterMap_cons, List.filter_cons] at ih ⊢
      by_cases h1 : e.1 = "en-US"
      · simp [h1, ih]
      · by_cases h2 : 0 < e.2.length ∧ cfg.platform ∉ e.2
        · obtain ⟨h2a, h2b⟩ := h2
          have hnil : e.2 ≠ [] := by
            intro hc
            rw [hc] at h2a
            simp at h2a
          simp [h1, h2a, h2b, hnil, ih]
        · have ht : e.1 ≠ "en-US" ∧ (e.2 = [] ∨ cfg.platform ∈ e.2) := by
            refine ⟨h1, ?_⟩
            by_cases hnil : e.2 = []
            · exact Or.inl hnil
            · right
              by_contra hmem
              exact h2 ⟨List.length_pos.mpr hnil, hmem⟩
          simp [h1, h2, ht, ih]
  · decide

theorem mkL10nMixin_eq_of_url (platform repo : String) (branch : Option String)
    (baseTag localesFile : String)
    (locales : Option (List (String × List String)))
    (localesURL : Option String) (url : String)
    (hu : (if strTruthy localesURL then localesURL
        else
          match branch with
          | none => none
          | some b => some (repo ++ b ++ "/raw-file/%(revision)s/" ++ localesFile)) =
      some url) :
    mkL10nMixin platform repo branch baseTag localesFile locales localesURL =
      if platform ∈ supportedPlatforms then
        some { branch := branch, baseTag := baseTag, localesURL := url,
               locales := locales, platform := normalizePlatform platform }
      else none := by
  simp only [mkL10nMixin]
  rw [hu]

/-- Claim C9: with a usable locale-source configuration, construction
succeeds exactly for the eight platforms of the closed set, and the stored
platform is the prefix-normalized one (`macosx*` to `osx`, `linux*` to
`linux`, others unchanged); in particular `macosx64` normalizes to `osx`. -/
theorem init_platform_validation (platform repo : String)
    (branch : Option String) (baseTag localesFile : String)
    (locales : Option (List (String × List String)))
    (localesURL : Option String)
    (hsrc : strTruthy localesURL = true ∨ branch ≠ none) :
    ((mkL10nMixin platform repo branch baseTag localesFile locales localesURL).isSome
        ↔ platform ∈ supportedPlatforms) ∧
    (∀ cfg, mkL10nMixin platform repo branch baseTag localesFile locales localesURL =
        some cfg → cfg.platform = normalizePlatform platform) ∧
    normalizePlatform "macosx64" = "osx" := by
  have hurl : ∃ url, (if strTruthy localesURL then localesURL
      else
        match branch with
        | none => none
        | some b => some (repo ++ b ++ "/raw-file/%(revision)s/" ++ localesFile)) =
      some url := by
    by_cases ht : strTruthy localesURL = true
    · rw [if_pos ht]
      cases localesURL with
      | none => exact Bool.noConfusion ht
      | some s => exact ⟨s, rfl⟩
    · rw [if_neg ht]
      cases branch with
      | none =>
        rcases hsrc with h | h
        · exact absurd h ht
        · exact absurd rfl h
      | some b => exact ⟨repo ++ b ++ "/raw-file/%(revision)s/" ++ localesFile, rfl⟩
  obtain ⟨url, hu⟩ := hurl
  rw [mkL10nMixin_eq_of_url platform repo branch baseTag localesFile locales
    localesURL url hu]
  by_cases hp : platform ∈ supportedPlatforms
  · rw [if_pos hp]
    refine ⟨by simp [hp], ?_, by decide⟩
    intro cfg hcfg
    injection hcfg with h
    rw [← h]
  · rw [if_neg hp]
    refine ⟨by simp [hp], ?_, by decide⟩
    intro cfg hcfg
    exact Option.noConfusion hcfg

/-- Claim C9, witness: constructing with raw platform `macosx64` (branch
present, no explicit URL) succeeds and stores normalized platform `osx`. -/
theorem init_platform_validation_witness :
    ((mkL10nMixin "macosx64" "https://hg.mozilla.org/" (some "mozilla-beta")
        "default" "browser/locales/all-locales" none none).isSome
      ↔ "macosx64" ∈ supportedPlatforms) ∧
    (∀ cfg, mkL10nMixin "macosx64" "https://hg.mozilla.org/" (some "mozilla-beta")
        "default" "browser/locales/all-locales" none none = some cfg →
      cfg.platform = normalizePlatform "macosx64") ∧
    normalizePlatform "macosx64" = "osx" :=
  init_platform_validation "macosx64" "https://hg.mozilla.org/"
    (some "mozilla-beta") "default" "browser/locales/all-locales" none none
    (Or.inr (by decide))

/-- Claim C10: whenever no truthy explicit locales URL is given and the
branch is absent, construction fails on `assert branch is not None` — even
when an explicit locale mapping is supplied, because the default URL is
built unconditionally on that path. -/
theorem init_requires_branch (platform repo : String)
    (baseTag localesFile : String)
    (locales : Option (List (String × List String)))
    (localesURL : Option String)
    (hurl : strTruthy localesURL = false) :
    mkL10nMixin platform repo none baseTag localesFile locales localesURL = none := by
  simp [mkL10nMixin, hurl]

/-- Claim C10, witness: no URL, no branch, but an explicit locale mapping —
construction still fails. -/
theorem init_requires_branch_witness :
    mkL10nMixin "win32" "https://hg.mozilla.org/" none "default"
      "browser/locales/all-locales" (some [("fr", ["osx"])]) none = none :=
  init_requires_branch "win32" "https://hg.mozilla.org/" "default"
    "browser/locales/all-locales" (some [("fr", ["osx"])]) none rfl
